import Mathlib

/-!
Verification of the segmented packet transport reader of the `bno080`
sensor-hub driver (`src/interface/i2c.rs`).

The transport reader is embedded shallowly: the i2c bus is an oracle
(`BusPort`) giving the response of every successive `read`/`write`
transaction, the reader state (`Iface`) mirrors the fields of
`I2cInterface`, and every operation returns its result together with the
updated state and the updated caller buffer.  Bus transactions, buffer
zeroing and delays are additionally recorded in an event trace so that
ordering claims can be stated.  Bytes are `Nat`s reduced mod 256 at the
bus boundary, matching `u8`.
-/

namespace BNO080

/-- `PACKET_HEADER_LENGTH` from the interface module: the fixed 4-byte
packet header prefix (spec §3). -/
def PACKET_HEADER_LENGTH : Nat := 4

/-- Length of the receive scratch buffer (`SEG_RECV_BUF_LEN` in
`i2c.rs`). -/
def SEG_RECV_BUF_LEN : Nat := 240

/-- `MAX_SEGMENT_READ = SEG_RECV_BUF_LEN` in `i2c.rs`: the segment
ceiling. -/
def MAX_SEGMENT_READ : Nat := SEG_RECV_BUF_LEN

/-- The only error the transport layer itself produces is a wrapped bus
communication error (`Error::Comm` in `lib.rs`). -/
inductive Error where
  | Comm : Error
deriving DecidableEq, Repr

/-- Observable actions of the transport reader, recorded in a trace:
bus reads/writes (with the length of the buffer slice handed to the bus),
a combined write-then-read bus transaction (never issued by this driver),
zeroing of the scratch header region, zeroing of the caller's output
buffer, and delays. -/
inductive Event where
  | busRead (len : Nat)
  | busWrite (len : Nat)
  | busWriteRead (wlen rlen : Nat)
  | zeroScratchHeader
  | zeroOutput (len : Nat)
  | delay (ms : Nat)
deriving DecidableEq, Repr

/-- Oracle for the i2c bus: the response of the `n`-th read transaction
(the bytes the device puts on the bus, or a communication error) and of
the `n`-th write transaction.  A successful read fills exactly the
requested number of bytes (spec §6). -/
structure BusPort where
  readResp : Nat → Except Error (List Nat)
  writeResp : Nat → Except Error Unit

/-- State of `I2cInterface`: the bus port, device address, the scratch
receive buffer `seg_recv_buf`, and `received_packet_count`, plus the
bookkeeping needed by the oracle (transaction counters) and the event
trace. -/
structure Iface where
  port : BusPort
  address : Nat
  seg_recv_buf : List Nat
  received_packet_count : Nat
  readsDone : Nat
  writesDone : Nat
  events : List Event

/-- A successful bus read of `n` bytes from a device response `resp`:
byte `i` of the filled buffer is byte `i` of the response (mod 256, the
bytes are `u8`). -/
def fillBytes (n : Nat) (resp : List Nat) : List Nat :=
  (List.range n).map (fun i => resp.getD i 0 % 256)

/-- Overwrite `buf[start .. start + bytes.length]` with `bytes` (Rust
`copy_from_slice` into a subslice). -/
def setSlice (buf : List Nat) (start : Nat) (bytes : List Nat) : List Nat :=
  buf.take start ++ bytes ++ buf.drop (start + bytes.length)

/-- Modelled from the spec: `SensorCommon::parse_packet_header` (defined
in the interface module, whose source file is not part of this tree) —
spec §3/§4.1: the first two header bytes are a 16-bit little-endian
length field whose low 15 bits are the total packet length including the
header; bit 15 (the continuation flag, i.e. bit 7 of the second byte)
is masked out.  Pure and total. -/
def parse_packet_header (packet : List Nat) : Nat :=
  packet.getD 0 0 + packet.getD 1 0 % 128 * 256

/-- The length a freshly read header decodes to, as a function of the
raw device response bytes of the header read. -/
def decodedLen (r : List Nat) : Nat :=
  parse_packet_header (fillBytes PACKET_HEADER_LENGTH r)

/-- One bus read of `len` bytes (`self.i2c_port.read(self.address,
&mut ...[..len])`): consumes the next read response of the oracle,
records the transaction, and yields the filled bytes. -/
def busRead (st : Iface) (len : Nat) : Except Error (List Nat) × Iface :=
  let st1 := { st with readsDone := st.readsDone + 1,
                       events := st.events ++ [Event.busRead len] }
  match st.port.readResp st.readsDone with
  | Except.error e => (Except.error e, st1)
  | Except.ok resp => (Except.ok (fillBytes len resp), st1)

/-- One bus write (`self.i2c_port.write(self.address, data)`). -/
def busWrite (st : Iface) (data : List Nat) : Except Error Unit × Iface :=
  let st1 := { st with writesDone := st.writesDone + 1,
                       events := st.events ++ [Event.busWrite data.length] }
  match st.port.writeResp st.writesDone with
  | Except.error e => (Except.error e, st1)
  | Except.ok _ => (Except.ok (), st1)

/-- `zero_recv_packet_header`: zero the first `PACKET_HEADER_LENGTH`
bytes of the scratch buffer. -/
def zero_recv_packet_header (st : Iface) : Iface :=
  { st with
      seg_recv_buf :=
        setSlice st.seg_recv_buf 0 (List.replicate PACKET_HEADER_LENGTH 0),
      events := st.events ++ [Event.zeroScratchHeader] }

/-- `read_packet_header`: zero the scratch header region, then read
`PACKET_HEADER_LENGTH` bytes into it. -/
def read_packet_header (st : Iface) : Except Error Unit × Iface :=
  let st := zero_recv_packet_header st
  match busRead st PACKET_HEADER_LENGTH with
  | (Except.error e, st) => (Except.error e, st)
  | (Except.ok bytes, st) =>
    (Except.ok (), { st with seg_recv_buf := setSlice st.seg_recv_buf 0 bytes })

/-- In the source, `remaining_body_len` is the `usize` subtraction
`total_packet_len - PACKET_HEADER_LENGTH`, computed unconditionally at
the top of `read_sized_packet`; it underflows exactly when the total
length is smaller than the header length (wrapping in builds without
overflow checks, panicking in builds with them). -/
def remaining_body_len_underflows (total_packet_len : Nat) : Bool :=
  total_packet_len < PACKET_HEADER_LENGTH

/-- The `while remaining_body_len > 0` loop of `read_sized_packet`,
written with an explicit fuel argument so that it is structurally
recursive and computable by the kernel.  Every iteration consumes at
least one body byte (`segment_read_len ≥ PACKET_HEADER_LENGTH + 1`
whenever `remaining_body_len > 0`), so `fuel = remaining_body_len` — the
value `read_sized_packet` passes — always suffices, and the `fuel = 0`
fallthrough coincides with the loop's exit result. -/
def rspGo (fuel : Nat) (st : Iface) (packet_recv_buf : List Nat)
    (remaining_body_len already_read_len : Nat) :
    Except Error Nat × Iface × List Nat :=
  match fuel with
  | 0 => (Except.ok already_read_len, st, packet_recv_buf)
  | fuel + 1 =>
    if 0 < remaining_body_len then
      let whole_segment_length := remaining_body_len + PACKET_HEADER_LENGTH
      let segment_read_len :=
        if whole_segment_length > MAX_SEGMENT_READ then MAX_SEGMENT_READ
        else whole_segment_length
      let st := zero_recv_packet_header st
      match busRead st segment_read_len with
      | (Except.error e, st) => (Except.error e, st, packet_recv_buf)
      | (Except.ok bytes, st) =>
        let st := { st with seg_recv_buf := setSlice st.seg_recv_buf 0 bytes }
        let promised_packet_len :=
          parse_packet_header (st.seg_recv_buf.take PACKET_HEADER_LENGTH)
        if promised_packet_len ≤ PACKET_HEADER_LENGTH then
          (Except.ok 0, st, packet_recv_buf)
        else
          let transcribe_start_idx :=
            if 0 < already_read_len then PACKET_HEADER_LENGTH else 0
          let transcribe_len :=
            if 0 < already_read_len then
              segment_read_len - PACKET_HEADER_LENGTH
            else segment_read_len
          let packet_recv_buf :=
            setSlice packet_recv_buf already_read_len
              ((st.seg_recv_buf.drop transcribe_start_idx).take transcribe_len)
          let body_read_len := segment_read_len - PACKET_HEADER_LENGTH
          rspGo fuel st packet_recv_buf
            (remaining_body_len - body_read_len)
            (already_read_len + transcribe_len)
    else (Except.ok already_read_len, st, packet_recv_buf)

/-- `read_sized_packet(total_packet_len, packet_recv_buf)`: zero the
output header region; if the packet fits in a single segment read it
directly into the output buffer (retransmitted header included),
otherwise run the segmented-reassembly loop. -/
def read_sized_packet (st : Iface) (total_packet_len : Nat)
    (packet_recv_buf : List Nat) : Except Error Nat × Iface × List Nat :=
  let remaining_body_len := total_packet_len - PACKET_HEADER_LENGTH
  let packet_recv_buf :=
    setSlice packet_recv_buf 0 (List.replicate PACKET_HEADER_LENGTH 0)
  if total_packet_len < MAX_SEGMENT_READ then
    if 0 < total_packet_len then
      match busRead st total_packet_len with
      | (Except.error e, st) => (Except.error e, st, packet_recv_buf)
      | (Except.ok bytes, st) =>
        (Except.ok total_packet_len, st, setSlice packet_recv_buf 0 bytes)
    else (Except.ok 0, st, packet_recv_buf)
  else rspGo remaining_body_len st packet_recv_buf remaining_body_len 0

/-- `read_packet(recv_buf)`: header read, decode, delegate to
`read_sized_packet` when a body is present, count the packet when the
decoded length is non-zero. -/
def read_packet (st : Iface) (recv_buf : List Nat) :
    Except Error Nat × Iface × List Nat :=
  match read_packet_header st with
  | (Except.error e, st) => (Except.error e, st, recv_buf)
  | (Except.ok _, st) =>
    let packet_len :=
      parse_packet_header (st.seg_recv_buf.take PACKET_HEADER_LENGTH)
    match
      (if PACKET_HEADER_LENGTH < packet_len then
        read_sized_packet st packet_len recv_buf
      else (Except.ok packet_len, st, recv_buf)) with
    | (Except.error e, st, recv_buf) => (Except.error e, st, recv_buf)
    | (Except.ok received_len, st, recv_buf) =>
      let st :=
        if 0 < packet_len then
          { st with received_packet_count := st.received_packet_count + 1 }
        else st
      (Except.ok received_len, st, recv_buf)

/-- The `while total_delay < max_ms` polling loop of
`read_with_timeout`: `total_delay` starts at 0 and increases by exactly 1
per empty poll, so the loop is the `max_ms - total_delay`-fold countdown
written here structurally. -/
def rwtGo (fuel : Nat) (st : Iface) (recv_buf : List Nat) :
    Except Error Nat × Iface × List Nat :=
  match fuel with
  | 0 => (Except.ok 0, st, recv_buf)
  | fuel + 1 =>
    match read_packet st recv_buf with
    | (Except.ok read_size, st, recv_buf) =>
      if read_size = 0 then
        let st := { st with events := st.events ++ [Event.delay 1] }
        rwtGo fuel st recv_buf
      else (Except.ok read_size, st, recv_buf)
    | (Except.error e, st, recv_buf) => (Except.error e, st, recv_buf)

/-- `read_with_timeout(recv_buf, delay_source, max_ms)`. -/
def read_with_timeout (st : Iface) (recv_buf : List Nat) (max_ms : Nat) :
    Except Error Nat × Iface × List Nat :=
  rwtGo max_ms st recv_buf

/-- `write_packet(packet)`. -/
def write_packet (st : Iface) (packet : List Nat) :
    Except Error Unit × Iface :=
  match busWrite st packet with
  | (Except.error e, st) => (Except.error e, st)
  | (Except.ok _, st) => (Except.ok (), st)

/-- `send_and_receive_packet(send_buf, recv_buf)`: bounded write, zero
the scratch header region and the caller's output buffer, header read,
decode, delegate, count.  The device does not support repeated-start, so
two separate transactions are used and no combined write-then-read
transaction ever appears. -/
def send_and_receive_packet (st : Iface) (send_buf recv_buf : List Nat) :
    Except Error Nat × Iface × List Nat :=
  match busWrite st send_buf with
  | (Except.error e, st) => (Except.error e, st, recv_buf)
  | (Except.ok _, st) =>
    let st := zero_recv_packet_header st
    let st := { st with events := st.events ++ [Event.zeroOutput recv_buf.length] }
    let recv_buf := List.replicate recv_buf.length 0
    match busRead st PACKET_HEADER_LENGTH with
    | (Except.error e, st) => (Except.error e, st, recv_buf)
    | (Except.ok bytes, st) =>
      let st := { st with seg_recv_buf := setSlice st.seg_recv_buf 0 bytes }
      let packet_len :=
        parse_packet_header (st.seg_recv_buf.take PACKET_HEADER_LENGTH)
      match
        (if PACKET_HEADER_LENGTH < packet_len then
          read_sized_packet st packet_len recv_buf
        else (Except.ok packet_len, st, recv_buf)) with
      | (Except.error e, st, recv_buf) => (Except.error e, st, recv_buf)
      | (Except.ok received_len, st, recv_buf) =>
        let st :=
          if 0 < packet_len then
            { st with received_packet_count := st.received_packet_count + 1 }
          else st
        (Except.ok received_len, st, recv_buf)

/-! ### Segmentation of a synthetic packet (spec §8 round-trip scenario)

A packet of total length `L ≥ MAX_SEGMENT_READ` is delivered as a first
segment holding its first `MAX_SEGMENT_READ` bytes, followed by
continuation segments each carrying a fresh 4-byte continuation header
(length field = remaining body + header length, continuation bit set)
and the next chunk of body bytes. -/

/-- A correctly masked continuation header announcing `remainingBody`
body bytes: little-endian length field `remainingBody +
PACKET_HEADER_LENGTH` with bit 15 (bit 7 of the second byte) set. -/
def contHeader (remainingBody : Nat) : List Nat :=
  let field := remainingBody + PACKET_HEADER_LENGTH
  [field % 256, field / 256 % 128 + 128, 0, 0]

/-- Continuation segments carrying `body`; each consumes
`min (MAX_SEGMENT_READ - PACKET_HEADER_LENGTH) body.length` body bytes,
so `fuel = body.length` always suffices. -/
def contSegGo (fuel : Nat) (body : List Nat) : List (List Nat) :=
  match fuel with
  | 0 => []
  | fuel + 1 =>
    if body = [] then []
    else
      let chunkLen := min (MAX_SEGMENT_READ - PACKET_HEADER_LENGTH) body.length
      (contHeader body.length ++ body.take chunkLen) ::
        contSegGo fuel (body.drop chunkLen)

/-- The continuation segments that deliver the body bytes `body`. -/
def contSegments (body : List Nat) : List (List Nat) := contSegGo body.length body

/-- All bus-read responses delivering the packet `orig` (of length
`≥ MAX_SEGMENT_READ`) to the reassembly loop, in transmission order. -/
def packetSegments (orig : List Nat) : List (List Nat) :=
  orig.take MAX_SEGMENT_READ :: contSegments (orig.drop MAX_SEGMENT_READ)

/-- The events of `n` empty polls of `read_with_timeout`: a header read
(scratch zeroing + 4-byte bus read) followed by a 1 ms delay, `n`
times. -/
def pollEvents : Nat → List Event
  | 0 => []
  | n + 1 =>
    Event.zeroScratchHeader :: Event.busRead PACKET_HEADER_LENGTH ::
      Event.delay 1 :: pollEvents n

/-- A bus-read event respects the segment ceiling (other events
trivially do). -/
def segBounded : Event → Bool
  | Event.busRead len => decide (len ≤ MAX_SEGMENT_READ)
  | _ => true

/-- Is this event a delay? -/
def isDelay : Event → Bool
  | Event.delay _ => true
  | _ => false

/-- Is this event a combined write-then-read bus transaction? -/
def isWriteRead : Event → Bool
  | Event.busWriteRead _ _ => true
  | _ => false

/-- The events the packet-reading operations may emit: bounded bus
reads, bus writes, and buffer zeroing — in particular no delay and no
combined write-then-read transaction. -/
def quietEvent (e : Event) : Prop :=
  (∃ l, e = Event.busRead l ∧ l ≤ MAX_SEGMENT_READ) ∨
    e = Event.zeroScratchHeader ∨ (∃ l, e = Event.zeroOutput l) ∨
    (∃ l, e = Event.busWrite l)

/-! ### Basic lemmas about the byte-level helpers -/

theorem fillBytes_length (n : Nat) (resp : List Nat) :
    (fillBytes n resp).length = n := by
  simp [fillBytes]

theorem fillBytes_take {m n : Nat} (h : m ≤ n) (resp : List Nat) :
    (fillBytes n resp).take m = fillBytes m resp := by
  simp [fillBytes, ← List.map_take, List.take_range, Nat.min_eq_left h]

theorem fillBytes_eq_take {n : Nat} {resp : List Nat}
    (hb : ∀ b ∈ resp, b < 256) (hn : n ≤ resp.length) :
    fillBytes n resp = resp.take n := by
  apply List.ext_getElem
  · simp [fillBytes_length, Nat.min_eq_left hn]
  · intro i h1 h2
    have hi : i < n := by simpa [fillBytes_length] using h1
    have hilt : i < resp.length := Nat.lt_of_lt_of_le hi hn
    have hmem : resp[i] ∈ resp := List.getElem_mem hilt
    simp [fillBytes, List.getD_eq_getElem?_getD, List.getElem?_eq_getElem hilt,
      Nat.mod_eq_of_lt (hb _ hmem), hi]

theorem setSlice_zero (buf bytes : List Nat) :
    setSlice buf 0 bytes = bytes ++ buf.drop bytes.length := by
  simp [setSlice]

theorem setSlice_length {buf bytes : List Nat} {start : Nat}
    (h : start + bytes.length ≤ buf.length) :
    (setSlice buf start bytes).length = buf.length := by
  simp [setSlice]
  omega

theorem quietEvent_segBounded {e : Event} (h : quietEvent e) :
    segBounded e = true := by
  rcases h with ⟨l, rfl, hl⟩ | rfl | ⟨l, rfl⟩ | ⟨l, rfl⟩ <;>
    simp [segBounded, *]

theorem quietEvent_not_delay {e : Event} (h : quietEvent e) :
    isDelay e = false := by
  rcases h with ⟨l, rfl, hl⟩ | rfl | ⟨l, rfl⟩ | ⟨l, rfl⟩ <;> simp [isDelay]

theorem quietEvent_not_writeRead {e : Event} (h : quietEvent e) :
    isWriteRead e = false := by
  rcases h with ⟨l, rfl, hl⟩ | rfl | ⟨l, rfl⟩ | ⟨l, rfl⟩ <;> simp [isWriteRead]

theorem parse_contHeader {rb : Nat} (h : rb + PACKET_HEADER_LENGTH < 32768) :
    parse_packet_header (contHeader rb) = rb + PACKET_HEADER_LENGTH := by
  simp [parse_packet_header, contHeader, PACKET_HEADER_LENGTH] at *
  omega

theorem contHeader_length (rb : Nat) :
    (contHeader rb).length = PACKET_HEADER_LENGTH := by
  simp [contHeader, PACKET_HEADER_LENGTH]

theorem contHeader_bytes {rb b : Nat} (h : b ∈ contHeader rb) : b < 256 := by
  simp [contHeader] at h
  rcases h with h | h | h | h <;> omega

/-! ### Frame lemmas: what the operations may do to the reader state -/

/-- `st'` extends `st` by quiet events only, with the same bus port. -/
def quietExt (st st' : Iface) : Prop :=
  st'.port = st.port ∧
    ∃ added, st'.events = st.events ++ added ∧ ∀ e ∈ added, quietEvent e

theorem quietExt_refl (st : Iface) : quietExt st st :=
  ⟨rfl, [], by simp, by simp⟩

theorem quietExt_trans {a b c : Iface} (h1 : quietExt a b) (h2 : quietExt b c) :
    quietExt a c := by
  obtain ⟨hp1, l1, he1, hq1⟩ := h1
  obtain ⟨hp2, l2, he2, hq2⟩ := h2
  refine ⟨hp2.trans hp1, l1 ++ l2, ?_, ?_⟩
  · rw [he2, he1, List.append_assoc]
  · intro e he
    rcases List.mem_append.mp he with h | h
    · exact hq1 e h
    · exact hq2 e h

theorem quietExt_zero_recv (st : Iface) :
    quietExt st (zero_recv_packet_header st) :=
  ⟨rfl, [Event.zeroScratchHeader], rfl, by
    intro e he
    simp at he
    subst he
    exact Or.inr (Or.inl rfl)⟩

theorem quietExt_setSeg {st st' : Iface} (h : quietExt st st') (x : List Nat) :
    quietExt st { st' with seg_recv_buf := x } := h

theorem busRead_snd (st : Iface) (len : Nat) :
    (busRead st len).2 =
      { st with readsDone := st.readsDone + 1,
                events := st.events ++ [Event.busRead len] } := by
  unfold busRead
  cases st.port.readResp st.readsDone <;> rfl

theorem quietExt_busRead {len : Nat} (st : Iface) (h : len ≤ MAX_SEGMENT_READ) :
    quietExt st (busRead st len).2 := by
  rw [busRead_snd]
  exact ⟨rfl, [Event.busRead len], rfl, by
    intro e he
    simp at he
    subst he
    exact Or.inl ⟨len, rfl, h⟩⟩

theorem busWrite_snd (st : Iface) (data : List Nat) :
    (busWrite st data).2 =
      { st with writesDone := st.writesDone + 1,
                events := st.events ++ [Event.busWrite data.length] } := by
  unfold busWrite
  cases st.port.writeResp st.writesDone <;> rfl

theorem quietExt_busWrite (st : Iface) (data : List Nat) :
    quietExt st (busWrite st data).2 := by
  rw [busWrite_snd]
  exact ⟨rfl, [Event.busWrite data.length], rfl, by
    intro e he
    simp at he
    subst he
    exact Or.inr (Or.inr (Or.inr ⟨data.length, rfl⟩))⟩

/-- The reassembly loop: only quiet events are emitted, the port is
untouched, and `received_packet_count` is unchanged. -/
theorem rspGo_frame (fuel : Nat) : ∀ (st : Iface) (buf : List Nat)
    (rem already : Nat),
    quietExt st (rspGo fuel st buf rem already).2.1 ∧
      (rspGo fuel st buf rem already).2.1.received_packet_count =
        st.received_packet_count := by
  induction fuel with
  | zero =>
    intro st buf rem already
    exact ⟨quietExt_refl st, rfl⟩
  | succ fuel ih =>
    intro st buf rem already
    by_cases hrem : 0 < rem
    · simp only [rspGo, if_pos hrem]
      set segLen :=
        if rem + PACKET_HEADER_LENGTH > MAX_SEGMENT_READ then MAX_SEGMENT_READ
        else rem + PACKET_HEADER_LENGTH with hseg
      have hsegLe : segLen ≤ MAX_SEGMENT_READ := by
        rw [hseg]
        split <;> omega
      have hq1 : quietExt st (busRead (zero_recv_packet_header st) segLen).2 :=
        quietExt_trans (quietExt_zero_recv st)
          (quietExt_busRead _ hsegLe)
      have hc1 : (busRead (zero_recv_packet_header st) segLen).2.received_packet_count
          = st.received_packet_count := by
        rw [busRead_snd]
        rfl
      rcases hres : busRead (zero_recv_packet_header st) segLen with ⟨res, st2⟩
      have hq2 : quietExt st st2 := by rw [hres] at hq1; exact hq1
      have hc2 : st2.received_packet_count = st.received_packet_count := by
        rw [hres] at hc1; exact hc1
      cases res with
      | error e => exact ⟨hq2, hc2⟩
      | ok bytes =>
        simp only []
        split
        · exact ⟨quietExt_setSeg hq2 _, hc2⟩
        · exact ⟨quietExt_trans (quietExt_setSeg hq2 _) ((ih _ _ _ _).1),
            ((ih _ _ _ _).2).trans hc2⟩
    · simp only [rspGo, if_neg hrem]
      exact ⟨quietExt_refl st, trivial⟩

/-- `read_sized_packet`: same frame as the loop (the fast path issues a
single bounded read below the segment ceiling). -/
theorem read_sized_packet_frame (st : Iface) (L : Nat) (buf : List Nat) :
    quietExt st (read_sized_packet st L buf).2.1 ∧
      (read_sized_packet st L buf).2.1.received_packet_count =
        st.received_packet_count := by
  rw [read_sized_packet]
  by_cases hL : L < MAX_SEGMENT_READ
  · rw [if_pos hL]
    by_cases h0 : 0 < L
    · rw [if_pos h0]
      have hq1 : quietExt st (busRead st L).2 :=
        quietExt_busRead st (Nat.le_of_lt hL)
      have hc1 : (busRead st L).2.received_packet_count =
          st.received_packet_count := by
        rw [busRead_snd]
      rcases hres : busRead st L with ⟨res, st2⟩
      have hq2 : quietExt st st2 := by rw [hres] at hq1; exact hq1
      have hc2 : st2.received_packet_count = st.received_packet_count := by
        rw [hres] at hc1; exact hc1
      cases res with
      | error e => exact ⟨hq2, hc2⟩
      | ok bytes => exact ⟨hq2, hc2⟩
    · rw [if_neg h0]
      exact ⟨quietExt_refl st, rfl⟩
  · rw [if_neg hL]
    exact rspGo_frame _ st _ _ _

/-! ### Canonical unfolding of the segmentation -/

theorem contSegGo_eq (fuel : Nat) (body : List Nat) (h : body.length ≤ fuel) :
    contSegGo fuel body = contSegments body := by
  match fuel with
  | 0 =>
    have hb : body = [] := List.eq_nil_of_length_eq_zero (Nat.le_zero.mp h)
    subst hb
    rfl
  | fuel + 1 =>
    by_cases hb : body = []
    · subst hb
      simp [contSegGo, contSegments]
    · have hpos : 0 < body.length := List.length_pos.mpr hb
      have hchunk :
          1 ≤ min (MAX_SEGMENT_READ - PACKET_HEADER_LENGTH) body.length := by
        simp [MAX_SEGMENT_READ, SEG_RECV_BUF_LEN, PACKET_HEADER_LENGTH]
        omega
      obtain ⟨k, hk⟩ : ∃ k, body.length = k + 1 := ⟨body.length - 1, by omega⟩
      have hdrop :
          (body.drop (min (MAX_SEGMENT_READ - PACKET_HEADER_LENGTH)
            body.length)).length =
            body.length -
              min (MAX_SEGMENT_READ - PACKET_HEADER_LENGTH) body.length := by
        simp
      have h1 : contSegGo fuel
          (body.drop (min (MAX_SEGMENT_READ - PACKET_HEADER_LENGTH)
            body.length)) = contSegments
          (body.drop (min (MAX_SEGMENT_READ - PACKET_HEADER_LENGTH)
            body.length)) :=
        contSegGo_eq fuel _ (by rw [hdrop]; omega)
      have h2 : contSegGo k
          (body.drop (min (MAX_SEGMENT_READ - PACKET_HEADER_LENGTH)
            body.length)) = contSegments
          (body.drop (min (MAX_SEGMENT_READ - PACKET_HEADER_LENGTH)
            body.length)) :=
        contSegGo_eq k _ (by rw [hdrop]; omega)
      rw [contSegments, hk]
      simp only [contSegGo, if_neg hb]
      congr 1
      rw [h1, h2]
termination_by fuel
decreasing_by all_goals omega

theorem contSegments_cons {body : List Nat} (hb : body ≠ []) :
    contSegments body =
      (contHeader body.length ++
        body.take (min (MAX_SEGMENT_READ - PACKET_HEADER_LENGTH)
          body.length)) ::
      contSegments (body.drop
        (min (MAX_SEGMENT_READ - PACKET_HEADER_LENGTH) body.length)) := by
  have hpos : 0 < body.length := List.length_pos.mpr hb
  obtain ⟨k, hk⟩ : ∃ k, body.length = k + 1 := ⟨body.length - 1, by omega⟩
  have hchunk :
      1 ≤ min (MAX_SEGMENT_READ - PACKET_HEADER_LENGTH) body.length := by
    simp [MAX_SEGMENT_READ, SEG_RECV_BUF_LEN, PACKET_HEADER_LENGTH]
    omega
  conv_lhs => rw [contSegments, hk]
  simp only [contSegGo, if_neg hb]
  congr 1
  refine contSegGo_eq k _ ?_
  simp
  omega

theorem contSegments_nil : contSegments [] = [] := rfl

/-! ### Correctness of the reassembly loop on a well-formed segment
stream -/

theorem take_header_of_setSlice (x seg : List Nat)
    (h : PACKET_HEADER_LENGTH ≤ seg.length) :
    (setSlice x 0 seg).take PACKET_HEADER_LENGTH =
      seg.take PACKET_HEADER_LENGTH := by
  rw [setSlice_zero, List.take_append_of_le_length h]

theorem drop_append_ge (l1 l2 : List Nat) (n : Nat) (h : l1.length ≤ n) :
    (l1 ++ l2).drop n = l2.drop (n - l1.length) := by
  obtain ⟨m, hm⟩ : ∃ m, n = l1.length + m := ⟨n - l1.length, by omega⟩
  subst hm
  rw [List.drop_append]
  congr 1
  omega

/-- Invariant step of the reassembly loop: once at least one segment has
been transcribed (`0 < already`), a stream of correctly-headed
continuation segments for `body` is copied headerless and in order right
behind the bytes already present, and the loop returns the total
transcription length. -/
theorem rspGo_contSeg (fuel : Nat) : ∀ (body : List Nat) (st : Iface)
    (buf : List Nat) (already : Nat),
    body.length ≤ fuel →
    0 < already →
    already + body.length ≤ buf.length →
    body.length + PACKET_HEADER_LENGTH < 32768 →
    (∀ b ∈ body, b < 256) →
    (∀ i, i < (contSegments body).length →
      st.port.readResp (st.readsDone + i) =
        Except.ok ((contSegments body).getD i [])) →
    ∃ st', rspGo fuel st buf body.length already =
      (Except.ok (already + body.length), st',
        buf.take already ++ body ++ buf.drop (already + body.length)) := by
  induction fuel with
  | zero =>
    intro body st buf already hfuel halready hbuf hsmall hbytes hport
    have hb : body = [] := List.eq_nil_of_length_eq_zero (Nat.le_zero.mp hfuel)
    subst hb
    exact ⟨st, by simp [rspGo]⟩
  | succ fuel ih =>
    intro body st buf already hfuel halready hbuf hsmall hbytes hport
    by_cases hb : body = []
    · subst hb
      exact ⟨st, by simp [rspGo]⟩
    have hbl : 0 < body.length := List.length_pos.mpr hb
    have hMS : MAX_SEGMENT_READ = 240 := rfl
    have hPH : PACKET_HEADER_LENGTH = 4 := rfl
    set c := min (MAX_SEGMENT_READ - PACKET_HEADER_LENGTH) body.length with hc
    have hc1 : 1 ≤ c := by
      rw [hc]
      omega
    have hcbl : c ≤ body.length := by rw [hc]; omega
    have hcs := contSegments_cons hb
    rw [← hc] at hcs
    -- the if computing segment_read_len evaluates to c + header
    have hseg :
        (if body.length + PACKET_HEADER_LENGTH > MAX_SEGMENT_READ then
          MAX_SEGMENT_READ
        else body.length + PACKET_HEADER_LENGTH) = c + PACKET_HEADER_LENGTH := by
      rw [hc]
      split <;> omega
    -- the first segment of the stream
    have hp0 : st.port.readResp st.readsDone =
        Except.ok (contHeader body.length ++ body.take c) := by
      have h := hport 0 (by rw [hcs]; simp)
      rw [hcs] at h
      simpa using h
    have hseg0len : (contHeader body.length ++ body.take c).length =
        c + PACKET_HEADER_LENGTH := by
      rw [List.length_append, contHeader_length, List.length_take_of_le hcbl]
      omega
    have hseg0bytes : ∀ b ∈ contHeader body.length ++ body.take c, b < 256 := by
      intro b hmem
      rcases List.mem_append.mp hmem with h | h
      · exact contHeader_bytes h
      · exact hbytes b (List.take_subset _ _ h)
    have hfill : fillBytes (c + PACKET_HEADER_LENGTH)
        (contHeader body.length ++ body.take c) =
        contHeader body.length ++ body.take c := by
      rw [fillBytes_eq_take hseg0bytes (by rw [hseg0len]),
        List.take_of_length_le (by rw [hseg0len])]
    simp only [rspGo, if_pos hbl, hseg, busRead, zero_recv_packet_header,
      hp0, hfill]
    -- the re-parsed continuation header
    have htake : (setSlice
        (setSlice st.seg_recv_buf 0 (List.replicate PACKET_HEADER_LENGTH 0)) 0
        (contHeader body.length ++ body.take c)).take PACKET_HEADER_LENGTH =
        contHeader body.length := by
      rw [take_header_of_setSlice _ _ (by rw [hseg0len]; omega),
        List.take_append_of_le_length (by rw [contHeader_length]),
        List.take_of_length_le (by rw [contHeader_length])]
    rw [htake, parse_contHeader (by omega)]
    rw [if_neg (by omega), if_pos halready, if_pos halready]
    have hcanc : c + PACKET_HEADER_LENGTH - PACKET_HEADER_LENGTH = c := by
      omega
    rw [hcanc]
    -- the transcription of this segment's body bytes
    have hcopy : ((setSlice
        (setSlice st.seg_recv_buf 0 (List.replicate PACKET_HEADER_LENGTH 0)) 0
        (contHeader body.length ++ body.take c)).drop
          PACKET_HEADER_LENGTH).take c = body.take c := by
      rw [setSlice_zero, List.append_assoc,
        List.drop_left' (contHeader_length body.length),
        List.take_append_of_le_length (by rw [List.length_take_of_le hcbl]),
        List.take_of_length_le (by rw [List.length_take_of_le hcbl])]
    rw [hcopy]
    have hlendrop : body.length - c = (body.drop c).length := by simp
    rw [hlendrop]
    -- apply the induction hypothesis to the remaining body bytes
    obtain ⟨st', hst'⟩ := ih (body.drop c)
      { st with
          seg_recv_buf := setSlice
            (setSlice st.seg_recv_buf 0 (List.replicate PACKET_HEADER_LENGTH 0))
            0 (contHeader body.length ++ body.take c),
          readsDone := st.readsDone + 1,
          events := (st.events ++ [Event.zeroScratchHeader]) ++
            [Event.busRead (c + PACKET_HEADER_LENGTH)] }
      (setSlice buf already (body.take c)) (already + c)
      (by simp; omega) (by omega)
      (by
        rw [setSlice_length
          (by rw [List.length_take_of_le hcbl]; omega)]
        simp
        omega)
      (by simp; omega)
      (fun b hmem => hbytes b (List.drop_subset _ _ hmem))
      (by
        intro i hi
        have h := hport (i + 1) (by rw [hcs]; simpa using Nat.succ_lt_succ hi)
        rw [hcs] at h
        simp only [List.getD_cons_succ] at h
        show st.port.readResp (st.readsDone + 1 + i) = _
        have harith : st.readsDone + 1 + i = st.readsDone + (i + 1) := by omega
        rw [harith]
        exact h)
    rw [hst']
    refine ⟨st', ?_⟩
    -- arithmetic and buffer algebra
    have htk : already ≤ buf.length := by omega
    have hbufA : setSlice buf already (body.take c) =
        buf.take already ++ body.take c ++ buf.drop (already + c) := by
      rw [setSlice, List.length_take_of_le hcbl]
    have hval : already + c + (body.drop c).length = already + body.length := by
      simp only [List.length_drop]
      omega
    have hB1 : (setSlice buf already (body.take c)).take (already + c) =
        buf.take already ++ body.take c := by
      rw [hbufA, List.take_left' (by
        rw [List.length_append, List.length_take_of_le htk,
          List.length_take_of_le hcbl])]
    have hB2 : (setSlice buf already (body.take c)).drop
        (already + c + (body.drop c).length) =
        buf.drop (already + body.length) := by
      rw [hbufA]
      have hidx : already + c + (body.drop c).length =
          (buf.take already ++ body.take c).length + (body.length - c) := by
        rw [List.length_append, List.length_take_of_le htk,
          List.length_take_of_le hcbl]
        simp only [List.length_drop]
      rw [hidx, List.drop_append, List.drop_drop]
      congr 1
      omega
    rw [hB1, hB2, hval,
      List.append_assoc (buf.take already) (body.take c) (body.drop c),
      List.take_append_drop]

set_option maxRecDepth 8000 in
/-- Claim C1: for every packet of total length `L ≥ MAX_SEGMENT_READ`
(with a well-formed header and byte-valued contents), delivered as a
first segment plus continuation segments each carrying a correctly
masked continuation header, `read_sized_packet L output_buffer` writes
exactly `L` bytes: the first segment is copied whole (header included)
at offset 0, every subsequent segment's header is skipped, and the
output buffer's first `L` bytes reproduce the original packet bytes
exactly. -/
theorem c1_reassembly_roundtrip (st : Iface) (orig buf : List Nat)
    (hL : MAX_SEGMENT_READ ≤ orig.length)
    (hsmall : orig.length < 32768)
    (hbytes : ∀ b ∈ orig, b < 256)
    (hhdr : parse_packet_header (orig.take PACKET_HEADER_LENGTH) = orig.length)
    (hbuf : orig.length ≤ buf.length)
    (hport : ∀ i, i < (packetSegments orig).length →
      st.port.readResp (st.readsDone + i) =
        Except.ok ((packetSegments orig).getD i [])) :
    ∃ st', read_sized_packet st orig.length buf =
      (Except.ok orig.length, st', orig ++ buf.drop orig.length) := by
  have hMS : MAX_SEGMENT_READ = 240 := rfl
  have hPH : PACKET_HEADER_LENGTH = 4 := rfl
  rw [read_sized_packet]
  rw [if_neg (by omega)]
  obtain ⟨k, hk⟩ : ∃ k, orig.length - PACKET_HEADER_LENGTH = k + 1 :=
    ⟨orig.length - PACKET_HEADER_LENGTH - 1, by omega⟩
  rw [hk]
  have hseg240 : (if k + 1 + PACKET_HEADER_LENGTH > MAX_SEGMENT_READ then
      MAX_SEGMENT_READ else k + 1 + PACKET_HEADER_LENGTH) = MAX_SEGMENT_READ := by
    split <;> omega
  have hp0 : st.port.readResp st.readsDone =
      Except.ok (orig.take MAX_SEGMENT_READ) := by
    have h := hport 0 (by simp [packetSegments])
    simpa [packetSegments] using h
  have h240le : MAX_SEGMENT_READ ≤ orig.length := hL
  have hfill240 : fillBytes MAX_SEGMENT_READ (orig.take MAX_SEGMENT_READ) =
      orig.take MAX_SEGMENT_READ := by
    rw [fillBytes_eq_take
        (fun b hmem => hbytes b (List.take_subset _ _ hmem))
        (by rw [List.length_take_of_le h240le]),
      List.take_of_length_le (by rw [List.length_take_of_le h240le])]
  simp only [rspGo, if_pos (Nat.succ_pos k), hseg240, busRead,
    zero_recv_packet_header, hp0, hfill240]
  have htakeP : (setSlice
      (setSlice st.seg_recv_buf 0 (List.replicate PACKET_HEADER_LENGTH 0)) 0
      (orig.take MAX_SEGMENT_READ)).take PACKET_HEADER_LENGTH =
      orig.take PACKET_HEADER_LENGTH := by
    rw [take_header_of_setSlice _ _
        (by rw [List.length_take_of_le h240le]; omega),
      List.take_take, Nat.min_eq_left (by omega)]
  rw [htakeP, hhdr, if_neg (by omega), if_neg (by omega), if_neg (by omega)]
  have hcopy0 : ((setSlice
      (setSlice st.seg_recv_buf 0 (List.replicate PACKET_HEADER_LENGTH 0)) 0
      (orig.take MAX_SEGMENT_READ)).drop 0).take MAX_SEGMENT_READ =
      orig.take MAX_SEGMENT_READ := by
    rw [List.drop_zero, setSlice_zero,
      List.take_append_of_le_length (by rw [List.length_take_of_le h240le]),
      List.take_of_length_le (by rw [List.length_take_of_le h240le])]
  rw [hcopy0]
  -- the remaining body length is the length of the rest of the packet
  have hrem : k + 1 - (MAX_SEGMENT_READ - PACKET_HEADER_LENGTH) =
      (orig.drop MAX_SEGMENT_READ).length := by
    rw [List.length_drop]
    omega
  rw [hrem]
  have hzadd : 0 + MAX_SEGMENT_READ = MAX_SEGMENT_READ := Nat.zero_add _
  rw [hzadd]
  -- explicit form of the output buffer after the first transcription
  have hbuf0 : setSlice buf 0 (List.replicate PACKET_HEADER_LENGTH 0) =
      List.replicate PACKET_HEADER_LENGTH 0 ++ buf.drop PACKET_HEADER_LENGTH := by
    rw [setSlice_zero, List.length_replicate]
  have hbufP : setSlice (setSlice buf 0 (List.replicate PACKET_HEADER_LENGTH 0))
      0 (orig.take MAX_SEGMENT_READ) =
      orig.take MAX_SEGMENT_READ ++ buf.drop MAX_SEGMENT_READ := by
    rw [setSlice_zero, List.length_take_of_le h240le, hbuf0]
    congr 1
    rw [drop_append_ge (List.replicate PACKET_HEADER_LENGTH 0)
        (buf.drop PACKET_HEADER_LENGTH) MAX_SEGMENT_READ
        (by rw [List.length_replicate]; omega),
      List.drop_drop]
    have hidx2 : PACKET_HEADER_LENGTH +
        (MAX_SEGMENT_READ - (List.replicate PACKET_HEADER_LENGTH (0 : Nat)).length) =
        MAX_SEGMENT_READ := by
      rw [List.length_replicate]
      omega
    rw [hidx2]
  obtain ⟨st', hst'⟩ := rspGo_contSeg k (orig.drop MAX_SEGMENT_READ)
    { st with
        seg_recv_buf := setSlice
          (setSlice st.seg_recv_buf 0 (List.replicate PACKET_HEADER_LENGTH 0))
          0 (orig.take MAX_SEGMENT_READ),
        readsDone := st.readsDone + 1,
        events := (st.events ++ [Event.zeroScratchHeader]) ++
          [Event.busRead MAX_SEGMENT_READ] }
    (setSlice (setSlice buf 0 (List.replicate PACKET_HEADER_LENGTH 0)) 0
      (orig.take MAX_SEGMENT_READ))
    MAX_SEGMENT_READ
    (by rw [List.length_drop]; omega)
    (by omega)
    (by
      rw [hbufP, List.length_append, List.length_take_of_le h240le,
        List.length_drop, List.length_drop]
      omega)
    (by rw [List.length_drop]; omega)
    (fun b hmem => hbytes b (List.drop_subset _ _ hmem))
    (by
      intro i hi
      have h := hport (i + 1) (by simp [packetSegments]; omega)
      simp only [packetSegments, List.getD_cons_succ] at h
      show st.port.readResp (st.readsDone + 1 + i) = _
      have harith : st.readsDone + 1 + i = st.readsDone + (i + 1) := by omega
      rw [harith]
      exact h)
  rw [hst']
  refine ⟨st', ?_⟩
  have hval2 : MAX_SEGMENT_READ + (orig.drop MAX_SEGMENT_READ).length =
      orig.length := by
    rw [List.length_drop]
    omega
  have hF1 : (setSlice (setSlice buf 0 (List.replicate PACKET_HEADER_LENGTH 0))
      0 (orig.take MAX_SEGMENT_READ)).take MAX_SEGMENT_READ =
      orig.take MAX_SEGMENT_READ := by
    rw [hbufP, List.take_left' (List.length_take_of_le h240le)]
  have hF2 : (setSlice (setSlice buf 0 (List.replicate PACKET_HEADER_LENGTH 0))
      0 (orig.take MAX_SEGMENT_READ)).drop
      (MAX_SEGMENT_READ + (orig.drop MAX_SEGMENT_READ).length) =
      buf.drop orig.length := by
    rw [hbufP,
      drop_append_ge (orig.take MAX_SEGMENT_READ) (buf.drop MAX_SEGMENT_READ)
        (MAX_SEGMENT_READ + (orig.drop MAX_SEGMENT_READ).length)
        (by rw [List.length_take_of_le h240le, List.length_drop]; omega),
      List.drop_drop]
    congr 1
    rw [List.length_take_of_le h240le, List.length_drop]
    omega
  rw [hF1, hF2, hval2, List.take_append_drop]

/-- A transport reader in its initial state, bound to the given bus
oracle (mirrors `I2cInterface::new`). -/
def ifaceOf (p : BusPort) : Iface :=
  { port := p, address := 74,
    seg_recv_buf := List.replicate SEG_RECV_BUF_LEN 0,
    received_packet_count := 0, readsDone := 0, writesDone := 0,
    events := [] }

/-- The 276-byte advertising packet captured from the sensor
(`ADVERTISING_PACKET_FULL` in the source's tests); its header length
field decodes to 276. -/
def advertisingPacket : List Nat := [
  20, 129, 0, 1, 0, 1, 4, 0, 0, 0, 0, 128, 6, 49, 46, 48, 46, 48, 0, 2, 2,
  0, 1, 3, 2, 255, 127, 4, 2, 0, 1, 5, 2, 255, 127, 8, 5, 83, 72, 84, 80,
  0, 6, 1, 0, 9, 8, 99, 111, 110, 116, 114, 111, 108, 0, 1, 4, 1, 0, 0, 0,
  8, 11, 101, 120, 101, 99, 117, 116, 97, 98, 108, 101, 0, 6, 1, 1, 9, 7,
  100, 101, 118, 105, 99, 101, 0, 1, 4, 2, 0, 0, 0, 8, 10, 115, 101, 110,
  115, 111, 114, 104, 117, 98, 0, 6, 1, 2, 9, 8, 99, 111, 110, 116, 114,
  111, 108, 0, 6, 1, 3, 9, 12, 105, 110, 112, 117, 116, 78, 111, 114, 109,
  97, 108, 0, 7, 1, 4, 9, 10, 105, 110, 112, 117, 116, 87, 97, 107, 101, 0,
  6, 1, 5, 9, 12, 105, 110, 112, 117, 116, 71, 121, 114, 111, 82, 118, 0,
  128, 6, 49, 46, 49, 46, 48, 0, 129, 100, 248, 16, 245, 4, 243, 16, 241,
  16, 251, 5, 250, 5, 252, 17, 239, 2, 1, 10, 2, 10, 3, 10, 4, 10, 5, 14,
  6, 10, 7, 16, 8, 12, 9, 14, 10, 8, 11, 8, 12, 6, 13, 6, 14, 6, 15, 16,
  16, 5, 17, 12, 18, 6, 19, 6, 20, 16, 21, 16, 22, 16, 23, 0, 24, 8, 25, 6,
  26, 0, 27, 0, 28, 6, 29, 0, 30, 16, 31, 0, 32, 0, 33, 0, 34, 0, 35, 0,
  36, 0, 37, 0, 38, 0, 39, 0, 40, 14, 41, 12, 42, 14]

/-- A bus oracle delivering the advertising packet as its segment
stream. -/
def c1Port : BusPort :=
  { readResp := fun n =>
      Except.ok ((packetSegments advertisingPacket).getD n [])
    writeResp := fun _ => Except.ok () }

set_option maxRecDepth 100000 in
/-- Witness for C1: reassembling the 276-byte advertising packet
(240-byte first segment + 40-byte continuation) reproduces it exactly
(the scenario of spec §8). -/
theorem c1_reassembly_roundtrip_witness :
    ∃ st', read_sized_packet (ifaceOf c1Port) advertisingPacket.length
        (List.replicate 276 0) =
      (Except.ok advertisingPacket.length, st',
        advertisingPacket ++
          (List.replicate 276 0).drop advertisingPacket.length) :=
  c1_reassembly_roundtrip (ifaceOf c1Port) advertisingPacket
    (List.replicate 276 0)
    (by decide) (by decide) (by decide) (by decide) (by decide)
    (by intro i hi; simp [ifaceOf, c1Port])

/-- Claim C2: for `header_length < L < segment_ceiling`,
`read_sized_packet` issues exactly one bus read of exactly `L` bytes
directly into the output buffer — whose first `header_length` bytes are
therefore the retransmitted header — and returns `L`. -/
theorem c2_fast_path (st : Iface) (buf r : List Nat) (L : Nat)
    (hL1 : PACKET_HEADER_LENGTH < L) (hL2 : L < MAX_SEGMENT_READ)
    (hbuf : L ≤ buf.length)
    (hr : st.port.readResp st.readsDone = Except.ok r) :
    read_sized_packet st L buf =
      (Except.ok L,
        { st with readsDone := st.readsDone + 1,
                  events := st.events ++ [Event.busRead L] },
        fillBytes L r ++ buf.drop L) ∧
      (fillBytes L r).take PACKET_HEADER_LENGTH =
        fillBytes PACKET_HEADER_LENGTH r := by
  have hMS : MAX_SEGMENT_READ = 240 := rfl
  have hPH : PACKET_HEADER_LENGTH = 4 := rfl
  constructor
  · have hX : setSlice (setSlice buf 0 (List.replicate PACKET_HEADER_LENGTH 0))
        0 (fillBytes L r) = fillBytes L r ++ buf.drop L := by
      rw [setSlice_zero, fillBytes_length, setSlice_zero,
        List.length_replicate,
        drop_append_ge (List.replicate PACKET_HEADER_LENGTH 0)
          (buf.drop PACKET_HEADER_LENGTH) L
          (by rw [List.length_replicate]; omega),
        List.drop_drop]
      have hidx : PACKET_HEADER_LENGTH +
          (L - (List.replicate PACKET_HEADER_LENGTH (0 : Nat)).length) = L := by
        rw [List.length_replicate]
        omega
      rw [hidx]
    simp only [read_sized_packet, if_pos hL2, if_pos (by omega : 0 < L),
      busRead, hr, hX]
  · exact fillBytes_take (by omega) r

/-- A bus oracle for the single-segment fast path: a 10-byte packet. -/
def c2Port : BusPort :=
  { readResp := fun _ => Except.ok [10, 0, 3, 4, 5, 6, 7, 8, 9, 10]
    writeResp := fun _ => Except.ok () }

/-- Witness for C2 at `L = 10`. -/
theorem c2_fast_path_witness :
    read_sized_packet (ifaceOf c2Port) 10 (List.replicate 12 1) =
      (Except.ok 10,
        { ifaceOf c2Port with
            readsDone := (ifaceOf c2Port).readsDone + 1,
            events := (ifaceOf c2Port).events ++ [Event.busRead 10] },
        fillBytes 10 [10, 0, 3, 4, 5, 6, 7, 8, 9, 10] ++
          (List.replicate 12 1).drop 10) ∧
      (fillBytes 10 [10, 0, 3, 4, 5, 6, 7, 8, 9, 10]).take
          PACKET_HEADER_LENGTH =
        fillBytes PACKET_HEADER_LENGTH [10, 0, 3, 4, 5, 6, 7, 8, 9, 10] :=
  c2_fast_path (ifaceOf c2Port) (List.replicate 12 1)
    [10, 0, 3, 4, 5, 6, 7, 8, 9, 10] 10
    (by decide) (by decide) (by decide) rfl

/-- A protocol fault aborts the reassembly loop with `Ok 0` and an
untouched output buffer, at any loop position. -/
theorem rspGo_fault (st : Iface) (buf r : List Nat)
    (fuel remaining already : Nat)
    (hf : 0 < fuel) (hrem : 0 < remaining)
    (hr : st.port.readResp st.readsDone = Except.ok r)
    (hfault : decodedLen r ≤ PACKET_HEADER_LENGTH) :
    ∃ st', rspGo fuel st buf remaining already = (Except.ok 0, st', buf) := by
  have hMS : MAX_SEGMENT_READ = 240 := rfl
  have hPH : PACKET_HEADER_LENGTH = 4 := rfl
  obtain ⟨f, rfl⟩ : ∃ f, fuel = f + 1 := ⟨fuel - 1, by omega⟩
  simp only [rspGo, if_pos hrem, busRead, zero_recv_packet_header, hr]
  have htkP : ∀ n, PACKET_HEADER_LENGTH ≤ n →
      (setSlice (setSlice st.seg_recv_buf 0
        (List.replicate PACKET_HEADER_LENGTH 0)) 0
        (fillBytes n r)).take PACKET_HEADER_LENGTH =
        fillBytes PACKET_HEADER_LENGTH r := by
    intro n hn
    rw [take_header_of_setSlice _ _ (by rw [fillBytes_length]; omega),
      fillBytes_take hn]
  have hfaultP : parse_packet_header (fillBytes PACKET_HEADER_LENGTH r) ≤
      PACKET_HEADER_LENGTH := hfault
  rw [htkP _ (by split <;> omega), if_pos hfaultP]
  exact ⟨_, rfl⟩

/-- Claim C3: during multi-segment reassembly, a freshly read segment
whose re-parsed header decodes to a length `≤ header_length` makes the
operation return `Ok 0` — no panic, no out-of-bounds read, no
communication error — at every loop position, and in particular in
`read_sized_packet` itself. -/
theorem c3_protocol_fault (st : Iface) (buf r : List Nat)
    (fuel remaining already L : Nat)
    (hr : st.port.readResp st.readsDone = Except.ok r)
    (hfault : decodedLen r ≤ PACKET_HEADER_LENGTH) :
    (0 < fuel → 0 < remaining →
      ∃ st', rspGo fuel st buf remaining already =
        (Except.ok 0, st', buf)) ∧
    (MAX_SEGMENT_READ ≤ L →
      ∃ st', read_sized_packet st L buf =
        (Except.ok 0, st',
          setSlice buf 0 (List.replicate PACKET_HEADER_LENGTH 0))) := by
  have hMS : MAX_SEGMENT_READ = 240 := rfl
  have hPH : PACKET_HEADER_LENGTH = 4 := rfl
  constructor
  · intro hf hrem
    exact rspGo_fault st buf r fuel remaining already hf hrem hr hfault
  · intro hL
    rw [read_sized_packet, if_neg (by omega)]
    exact rspGo_fault st _ r _ _ 0 (by omega) (by omega) hr hfault

/-- A bus oracle answering every read with an all-zero response. -/
def zeroPort : BusPort :=
  { readResp := fun _ => Except.ok []
    writeResp := fun _ => Except.ok () }

/-- Witness for C3: an all-zero continuation header (decoded length 0)
aborts a 300-byte reassembly with `Ok 0`. -/
theorem c3_protocol_fault_witness :
    (∃ st', rspGo 296 (ifaceOf zeroPort) (List.replicate 300 7) 296 0 =
      (Except.ok 0, st', List.replicate 300 7)) ∧
    (∃ st', read_sized_packet (ifaceOf zeroPort) 300 (List.replicate 300 7) =
      (Except.ok 0, st',
        setSlice (List.replicate 300 7) 0
          (List.replicate PACKET_HEADER_LENGTH 0))) := by
  have h := c3_protocol_fault (ifaceOf zeroPort) (List.replicate 300 7) []
    296 296 0 300 rfl (by decide)
  exact ⟨h.1 (by decide) (by decide), h.2 (by decide)⟩

/-- Counterexample to C4 as stated: with `total_length = 0`, the `usize`
subtraction computing `remaining_body_len` does underflow. -/
theorem c4_zero_total_counterexample :
    ¬ remaining_body_len_underflows 0 = false := by decide

/-- Claim C4 (amended): `read_sized_packet` with `total_length = 0`
performs no bus read, leaves the reader state unchanged, and returns 0
bytes written (only the output header region is zeroed) — but the
`usize` computation of `remaining_body_len` does underflow there (it
wraps in builds without overflow checks and would panic in builds with
them); the wrapped value is never used on this path. -/
theorem c4_zero_total (st : Iface) (buf : List Nat) :
    read_sized_packet st 0 buf =
      (Except.ok 0, st,
        setSlice buf 0 (List.replicate PACKET_HEADER_LENGTH 0)) ∧
      remaining_body_len_underflows 0 = true :=
  ⟨rfl, rfl⟩

/-! ### Computation lemmas for the packet-level operations -/

/-- After zeroing and a 4-byte header read, the scratch header region
holds exactly the freshly read header bytes. -/
theorem seg_take_after_header (x r : List Nat) :
    (setSlice (setSlice x 0 (List.replicate PACKET_HEADER_LENGTH 0)) 0
      (fillBytes PACKET_HEADER_LENGTH r)).take PACKET_HEADER_LENGTH =
      fillBytes PACKET_HEADER_LENGTH r := by
  rw [take_header_of_setSlice _ _ (by rw [fillBytes_length]),
    List.take_of_length_le (by rw [fillBytes_length])]

/-- Reader state after a successful header read answered with `r`. -/
def afterHeader (st : Iface) (r : List Nat) : Iface :=
  { st with
      seg_recv_buf := setSlice (setSlice st.seg_recv_buf 0
        (List.replicate PACKET_HEADER_LENGTH 0)) 0
        (fillBytes PACKET_HEADER_LENGTH r),
      readsDone := st.readsDone + 1,
      events := (st.events ++ [Event.zeroScratchHeader]) ++
        [Event.busRead PACKET_HEADER_LENGTH] }

/-- Reader state after a failed header read. -/
def afterHeaderErr (st : Iface) : Iface :=
  { st with
      seg_recv_buf := setSlice st.seg_recv_buf 0
        (List.replicate PACKET_HEADER_LENGTH 0),
      readsDone := st.readsDone + 1,
      events := (st.events ++ [Event.zeroScratchHeader]) ++
        [Event.busRead PACKET_HEADER_LENGTH] }

theorem read_packet_header_ok (st : Iface) (r : List Nat)
    (hr : st.port.readResp st.readsDone = Except.ok r) :
    read_packet_header st = (Except.ok (), afterHeader st r) := by
  simp only [read_packet_header, busRead, zero_recv_packet_header, hr,
    afterHeader]

theorem read_packet_header_err (st : Iface) (e : Error)
    (he : st.port.readResp st.readsDone = Except.error e) :
    read_packet_header st = (Except.error e, afterHeaderErr st) := by
  simp only [read_packet_header, busRead, zero_recv_packet_header, he,
    afterHeaderErr]

theorem afterHeader_take (st : Iface) (r : List Nat) :
    (afterHeader st r).seg_recv_buf.take PACKET_HEADER_LENGTH =
      fillBytes PACKET_HEADER_LENGTH r :=
  seg_take_after_header st.seg_recv_buf r

/-- `read_packet` under a successful header read: decode the header,
delegate if a body is present, and count the packet if the decoded
length is non-zero. -/
theorem read_packet_ok_eq (st : Iface) (buf r : List Nat)
    (hr : st.port.readResp st.readsDone = Except.ok r) :
    read_packet st buf =
      match (if PACKET_HEADER_LENGTH < decodedLen r then
          read_sized_packet (afterHeader st r) (decodedLen r) buf
        else (Except.ok (decodedLen r), afterHeader st r, buf)) with
      | (Except.error e, st2, buf2) => (Except.error e, st2, buf2)
      | (Except.ok n, st2, buf2) =>
        (Except.ok n,
          if 0 < decodedLen r then
            { st2 with received_packet_count :=
                st2.received_packet_count + 1 }
          else st2, buf2) := by
  have hH := read_packet_header_ok st r hr
  simp only [read_packet, hH, afterHeader_take, decodedLen]

/-- Reader state after a bus write of `data` (successful or not). -/
def afterWrite (st : Iface) (data : List Nat) : Iface :=
  { st with writesDone := st.writesDone + 1,
            events := st.events ++ [Event.busWrite data.length] }

theorem busWrite_ok (st : Iface) (data : List Nat)
    (hw : st.port.writeResp st.writesDone = Except.ok ()) :
    busWrite st data = (Except.ok (), afterWrite st data) := by
  simp only [busWrite, hw, afterWrite]

theorem busWrite_err (st : Iface) (data : List Nat) (e : Error)
    (hw : st.port.writeResp st.writesDone = Except.error e) :
    busWrite st data = (Except.error e, afterWrite st data) := by
  simp only [busWrite, hw, afterWrite]

/-- Reader state in `send_and_receive_packet` after the command write,
the zeroing of scratch header and output buffer, and a successful
header read answered with `r`. -/
def afterCmdHeader (st : Iface) (sendLen recvLen : Nat) (r : List Nat) :
    Iface :=
  { st with
      writesDone := st.writesDone + 1,
      readsDone := st.readsDone + 1,
      seg_recv_buf := setSlice (setSlice st.seg_recv_buf 0
        (List.replicate PACKET_HEADER_LENGTH 0)) 0
        (fillBytes PACKET_HEADER_LENGTH r),
      events := (((st.events ++ [Event.busWrite sendLen]) ++
        [Event.zeroScratchHeader]) ++ [Event.zeroOutput recvLen]) ++
        [Event.busRead PACKET_HEADER_LENGTH] }

/-- `send_and_receive_packet` under a successful write and header read:
write, zero, header read, decode, delegate, count. -/
theorem sarp_ok_eq (st : Iface) (send recv r : List Nat)
    (hw : st.port.writeResp st.writesDone = Except.ok ())
    (hr : st.port.readResp st.readsDone = Except.ok r) :
    send_and_receive_packet st send recv =
      match (if PACKET_HEADER_LENGTH < decodedLen r then
          read_sized_packet (afterCmdHeader st send.length recv.length r)
            (decodedLen r) (List.replicate recv.length 0)
        else (Except.ok (decodedLen r),
          afterCmdHeader st send.length recv.length r,
          List.replicate recv.length 0)) with
      | (Except.error e, st2, buf2) => (Except.error e, st2, buf2)
      | (Except.ok n, st2, buf2) =>
        (Except.ok n,
          if 0 < decodedLen r then
            { st2 with received_packet_count :=
                st2.received_packet_count + 1 }
          else st2, buf2) := by
  simp only [send_and_receive_packet, busWrite, hw, zero_recv_packet_header,
    busRead, hr, afterCmdHeader, decodedLen, seg_take_after_header]

/-! ### Packet-counter facts -/

/-- `read_packet` changes the packet counter by at most one, and not at
all when it fails with a communication error. -/
theorem read_packet_count_facts (st : Iface) (buf : List Nat) :
    (st.received_packet_count ≤
        (read_packet st buf).2.1.received_packet_count ∧
      (read_packet st buf).2.1.received_packet_count ≤
        st.received_packet_count + 1) ∧
    (∀ e, (read_packet st buf).1 = Except.error e →
      (read_packet st buf).2.1.received_packet_count =
        st.received_packet_count) := by
  rcases hh : st.port.readResp st.readsDone with e' | r
  · have hH := read_packet_header_err st e' hh
    simp only [read_packet, hH]
    exact ⟨⟨Nat.le_refl _, Nat.le_succ _⟩, fun e he => rfl⟩
  · have hE := read_packet_ok_eq st buf r hh
    rw [hE]
    by_cases hp : PACKET_HEADER_LENGTH < decodedLen r
    · rw [if_pos hp]
      rcases hrs : read_sized_packet (afterHeader st r) (decodedLen r) buf
        with ⟨res, st2, buf2⟩
      have hfr := (read_sized_packet_frame (afterHeader st r)
        (decodedLen r) buf).2
      rw [hrs] at hfr
      have hfr' : st2.received_packet_count = st.received_packet_count := hfr
      cases res with
      | error e'' =>
        simp only []
        exact ⟨⟨by omega, by omega⟩, fun e he => hfr'⟩
      | ok n =>
        simp only []
        rw [if_pos (by omega : 0 < decodedLen r)]
        refine ⟨⟨?_, ?_⟩, ?_⟩
        · show st.received_packet_count ≤ st2.received_packet_count + 1
          omega
        · show st2.received_packet_count + 1 ≤ st.received_packet_count + 1
          omega
        · intro e he
          simp at he
    · rw [if_neg hp]
      simp only []
      refine ⟨?_, ?_⟩
      · split
        · exact ⟨Nat.le_succ _, Nat.le_refl _⟩
        · exact ⟨Nat.le_refl _, Nat.le_succ _⟩
      · intro e he
        simp at he

/-- `send_and_receive_packet` changes the packet counter by at most
one, and not at all when it fails with a communication error. -/
theorem sarp_count_facts (st : Iface) (send recv : List Nat) :
    (st.received_packet_count ≤
        (send_and_receive_packet st send recv).2.1.received_packet_count ∧
      (send_and_receive_packet st send recv).2.1.received_packet_count ≤
        st.received_packet_count + 1) ∧
    (∀ e, (send_and_receive_packet st send recv).1 = Except.error e →
      (send_and_receive_packet st send recv).2.1.received_packet_count =
        st.received_packet_count) := by
  rcases hw : st.port.writeResp st.writesDone with e0 | u
  · have hW := busWrite_err st send e0 hw
    simp only [send_and_receive_packet, hW]
    exact ⟨⟨Nat.le_refl _, Nat.le_succ _⟩, fun e he => by trivial⟩
  · cases u
    rcases hh : st.port.readResp st.readsDone with e' | r
    · simp only [send_and_receive_packet, busWrite, hw,
        zero_recv_packet_header, busRead, hh]
      exact ⟨⟨Nat.le_refl _, Nat.le_succ _⟩, fun e he => by trivial⟩
    · have hE := sarp_ok_eq st send recv r hw hh
      rw [hE]
      by_cases hp : PACKET_HEADER_LENGTH < decodedLen r
      · rw [if_pos hp]
        rcases hrs : read_sized_packet (afterCmdHeader st send.length
            recv.length r) (decodedLen r) (List.replicate recv.length 0)
          with ⟨res, st2, buf2⟩
        have hfr := (read_sized_packet_frame
          (afterCmdHeader st send.length recv.length r) (decodedLen r)
          (List.replicate recv.length 0)).2
        rw [hrs] at hfr
        have hfr' : st2.received_packet_count = st.received_packet_count :=
          hfr
        cases res with
        | error e'' =>
          simp only []
          exact ⟨⟨by omega, by omega⟩, fun e he => hfr'⟩
        | ok n =>
          simp only []
          rw [if_pos (by omega : 0 < decodedLen r)]
          refine ⟨⟨?_, ?_⟩, ?_⟩
          · show st.received_packet_count ≤ st2.received_packet_count + 1
            omega
          · show st2.received_packet_count + 1 ≤ st.received_packet_count + 1
            omega
          · intro e he
            simp at he
      · rw [if_neg hp]
        simp only []
        refine ⟨?_, ?_⟩
        · split
          · exact ⟨Nat.le_succ _, Nat.le_refl _⟩
          · exact ⟨Nat.le_refl _, Nat.le_succ _⟩
        · intro e he
          simp at he

/-- The polling loop never decreases the packet counter. -/
theorem rwtGo_count_mono (fuel : Nat) : ∀ (st : Iface) (buf : List Nat),
    st.received_packet_count ≤
      (rwtGo fuel st buf).2.1.received_packet_count := by
  induction fuel with
  | zero => intro st buf; exact Nat.le_refl _
  | succ fuel ih =>
    intro st buf
    have h := (read_packet_count_facts st buf).1.1
    simp only [rwtGo]
    rcases hrp : read_packet st buf with ⟨res, st1, buf1⟩
    rw [hrp] at h
    have h1 : st.received_packet_count ≤ st1.received_packet_count := h
    cases res with
    | ok k =>
      simp only []
      split
      · exact Nat.le_trans h1
          (ih { st1 with events := st1.events ++ [Event.delay 1] } buf1)
      · exact h1
    | error e => exact h1

/-- `write_packet` leaves the packet counter unchanged. -/
theorem write_packet_count (st : Iface) (data : List Nat) :
    (write_packet st data).2.received_packet_count =
      st.received_packet_count := by
  unfold write_packet
  rcases hbw : busWrite st data with ⟨res, st1⟩
  have hsnd := busWrite_snd st data
  rw [hbw] at hsnd
  have h2 : st1.received_packet_count = st.received_packet_count := by
    have h3 := congrArg Iface.received_packet_count hsnd
    exact h3
  cases res <;> simp only [] <;> exact h2

/-- Claim C5: `received_packet_count` is monotonically increasing
across all operations and is incremented exactly once per successfully
framed packet (decoded length > 0) by `read_packet` and by
`send_and_receive_packet`; in particular it is not incremented when the
decoded header length is 0. -/
theorem c5_packet_counter (st : Iface) (buf send recv r : List Nat)
    (L m : Nat) :
    (st.received_packet_count ≤
        (read_packet st buf).2.1.received_packet_count ∧
      (read_packet st buf).2.1.received_packet_count ≤
        st.received_packet_count + 1) ∧
    (st.received_packet_count ≤
        (send_and_receive_packet st send recv).2.1.received_packet_count ∧
      (send_and_receive_packet st send recv).2.1.received_packet_count ≤
        st.received_packet_count + 1) ∧
    st.received_packet_count ≤
      (read_with_timeout st buf m).2.1.received_packet_count ∧
    (read_sized_packet st L buf).2.1.received_packet_count =
      st.received_packet_count ∧
    (write_packet st send).2.received_packet_count =
      st.received_packet_count ∧
    (st.port.readResp st.readsDone = Except.ok r →
      (decodedLen r = 0 →
        (read_packet st buf).2.1.received_packet_count =
          st.received_packet_count) ∧
      (0 < decodedLen r → ∀ n, (read_packet st buf).1 = Except.ok n →
        (read_packet st buf).2.1.received_packet_count =
          st.received_packet_count + 1)) ∧
    (st.port.writeResp st.writesDone = Except.ok () →
      st.port.readResp st.readsDone = Except.ok r →
      (decodedLen r = 0 →
        (send_and_receive_packet st send recv).2.1.received_packet_count =
          st.received_packet_count) ∧
      (0 < decodedLen r → ∀ n,
        (send_and_receive_packet st send recv).1 = Except.ok n →
        (send_and_receive_packet st send recv).2.1.received_packet_count =
          st.received_packet_count + 1)) := by
  refine ⟨(read_packet_count_facts st buf).1,
    (sarp_count_facts st send recv).1,
    rwtGo_count_mono m st buf,
    (read_sized_packet_frame st L buf).2,
    write_packet_count st send, ?_, ?_⟩
  · intro hr
    have hE := read_packet_ok_eq st buf r hr
    constructor
    · intro h0
      rw [hE, h0]
      rfl
    · intro hpos n hok
      rw [hE] at hok
      rw [hE]
      by_cases hp : PACKET_HEADER_LENGTH < decodedLen r
      · rw [if_pos hp] at hok
        rw [if_pos hp]
        rcases hrs : read_sized_packet (afterHeader st r) (decodedLen r) buf
          with ⟨res, st2, buf2⟩
        rw [hrs] at hok
        have hfr := (read_sized_packet_frame (afterHeader st r)
          (decodedLen r) buf).2
        rw [hrs] at hfr
        have hfr' : st2.received_packet_count = st.received_packet_count :=
          hfr
        cases res with
        | error e => simp at hok
        | ok k =>
          simp only []
          rw [if_pos hpos]
          show st2.received_packet_count + 1 = st.received_packet_count + 1
          omega
      · rw [if_neg hp] at hok
        rw [if_neg hp]
        simp only []
        rw [if_pos hpos]
        rfl
  · intro hw hr
    have hE := sarp_ok_eq st send recv r hw hr
    constructor
    · intro h0
      rw [hE, h0]
      rfl
    · intro hpos n hok
      rw [hE] at hok
      rw [hE]
      by_cases hp : PACKET_HEADER_LENGTH < decodedLen r
      · rw [if_pos hp] at hok
        rw [if_pos hp]
        rcases hrs : read_sized_packet
            (afterCmdHeader st send.length recv.length r) (decodedLen r)
            (List.replicate recv.length 0)
          with ⟨res, st2, buf2⟩
        rw [hrs] at hok
        have hfr := (read_sized_packet_frame
          (afterCmdHeader st send.length recv.length r) (decodedLen r)
          (List.replicate recv.length 0)).2
        rw [hrs] at hfr
        have hfr' : st2.received_packet_count = st.received_packet_count :=
          hfr
        cases res with
        | error e => simp at hok
        | ok k =>
          simp only []
          rw [if_pos hpos]
          show st2.received_packet_count + 1 = st.received_packet_count + 1
          omega
      · rw [if_neg hp] at hok
        rw [if_neg hp]
        simp only []
        rw [if_pos hpos]
        rfl

/-- Witness for C5: header decoding to 0 leaves the counter unchanged
both in `read_packet` and in `send_and_receive_packet`. -/
theorem c5_packet_counter_witness :
    (read_packet (ifaceOf zeroPort) []).2.1.received_packet_count =
      (ifaceOf zeroPort).received_packet_count ∧
    (send_and_receive_packet (ifaceOf zeroPort) [1]
        []).2.1.received_packet_count =
      (ifaceOf zeroPort).received_packet_count := by
  have h := c5_packet_counter (ifaceOf zeroPort) [] [1] [] [] 0 0
  exact ⟨(h.2.2.2.2.2.1 rfl).1 rfl, (h.2.2.2.2.2.2 rfl rfl).1 rfl⟩

/-- Claim C8: when the decoded header length is `≤ header_length`,
`read_packet` returns it directly as `bytes_read` after exactly one
header-sized bus read, leaving the caller's buffer untouched and
issuing no body read. -/
theorem c8_short_header (st : Iface) (buf r : List Nat)
    (hr : st.port.readResp st.readsDone = Except.ok r)
    (hle : decodedLen r ≤ PACKET_HEADER_LENGTH) :
    (read_packet st buf).1 = Except.ok (decodedLen r) ∧
    (read_packet st buf).2.1.readsDone = st.readsDone + 1 ∧
    (read_packet st buf).2.2 = buf ∧
    (read_packet st buf).2.1.events =
      st.events ++ [Event.zeroScratchHeader,
        Event.busRead PACKET_HEADER_LENGTH] := by
  have hE := read_packet_ok_eq st buf r hr
  rw [hE, if_neg (Nat.not_lt.mpr hle)]
  refine ⟨rfl, ?_, rfl, ?_⟩ <;>
    (simp only []; split <;> simp [afterHeader])

/-- Witness for C8: an all-zero header yields 0 after one 4-byte bus
read and no body read. -/
theorem c8_short_header_witness :
    (read_packet (ifaceOf zeroPort) (List.replicate 20 3)).1 =
      Except.ok (decodedLen []) ∧
    (read_packet (ifaceOf zeroPort) (List.replicate 20 3)).2.1.readsDone =
      (ifaceOf zeroPort).readsDone + 1 ∧
    (read_packet (ifaceOf zeroPort) (List.replicate 20 3)).2.2 =
      List.replicate 20 3 ∧
    (read_packet (ifaceOf zeroPort) (List.replicate 20 3)).2.1.events =
      (ifaceOf zeroPort).events ++ [Event.zeroScratchHeader,
        Event.busRead PACKET_HEADER_LENGTH] :=
  c8_short_header (ifaceOf zeroPort) (List.replicate 20 3) [] rfl
    (by decide)

/-- Claim C10: a communication error from any underlying bus operation
is returned to the caller and leaves `received_packet_count` unchanged,
both in `read_packet` and in `send_and_receive_packet`. -/
theorem c10_error_preserves_counter (st : Iface) (buf send recv : List Nat) :
    (∀ e, (read_packet st buf).1 = Except.error e →
      (read_packet st buf).2.1.received_packet_count =
        st.received_packet_count) ∧
    (∀ e, (send_and_receive_packet st send recv).1 = Except.error e →
      (send_and_receive_packet st send recv).2.1.received_packet_count =
        st.received_packet_count) :=
  ⟨(read_packet_count_facts st buf).2, (sarp_count_facts st send recv).2⟩

/-- A bus oracle whose reads always fail with a communication error. -/
def errPort : BusPort :=
  { readResp := fun _ => Except.error Error.Comm
    writeResp := fun _ => Except.ok () }

/-- Witness for C10: a failing header read leaves the counter at 0. -/
theorem c10_error_preserves_counter_witness :
    (read_packet (ifaceOf errPort) []).2.1.received_packet_count =
      (ifaceOf errPort).received_packet_count ∧
    (send_and_receive_packet (ifaceOf errPort) [1]
        []).2.1.received_packet_count =
      (ifaceOf errPort).received_packet_count :=
  ⟨(c10_error_preserves_counter (ifaceOf errPort) [] [1] []).1
      Error.Comm rfl,
    (c10_error_preserves_counter (ifaceOf errPort) [] [1] []).2
      Error.Comm rfl⟩

/-! ### Event traces of the packet-level operations -/

theorem quietExt_afterHeader (st : Iface) (r : List Nat) :
    quietExt st (afterHeader st r) := by
  refine ⟨rfl, [Event.zeroScratchHeader,
    Event.busRead PACKET_HEADER_LENGTH], by simp [afterHeader], ?_⟩
  intro e he
  simp at he
  rcases he with rfl | rfl
  · exact Or.inr (Or.inl rfl)
  · exact Or.inl ⟨PACKET_HEADER_LENGTH, rfl, by decide⟩

theorem quietExt_afterHeaderErr (st : Iface) :
    quietExt st (afterHeaderErr st) := by
  refine ⟨rfl, [Event.zeroScratchHeader,
    Event.busRead PACKET_HEADER_LENGTH], by simp [afterHeaderErr], ?_⟩
  intro e he
  simp at he
  rcases he with rfl | rfl
  · exact Or.inr (Or.inl rfl)
  · exact Or.inl ⟨PACKET_HEADER_LENGTH, rfl, by decide⟩

theorem quietExt_afterCmdHeader (st : Iface) (sL rL : Nat) (r : List Nat) :
    quietExt st (afterCmdHeader st sL rL r) := by
  refine ⟨rfl, [Event.busWrite sL, Event.zeroScratchHeader,
    Event.zeroOutput rL, Event.busRead PACKET_HEADER_LENGTH],
    by simp [afterCmdHeader], ?_⟩
  intro e he
  simp at he
  rcases he with rfl | rfl | rfl | rfl
  · exact Or.inr (Or.inr (Or.inr ⟨sL, rfl⟩))
  · exact Or.inr (Or.inl rfl)
  · exact Or.inr (Or.inr (Or.inl ⟨rL, rfl⟩))
  · exact Or.inl ⟨PACKET_HEADER_LENGTH, rfl, by decide⟩

theorem quietExt_setCount {st st' : Iface} (h : quietExt st st') (x : Nat) :
    quietExt st { st' with received_packet_count := x } := h

/-- `read_packet` extends the trace by quiet events only. -/
theorem read_packet_quiet (st : Iface) (buf : List Nat) :
    quietExt st (read_packet st buf).2.1 := by
  rcases hh : st.port.readResp st.readsDone with e' | r
  · have hH := read_packet_header_err st e' hh
    simp only [read_packet, hH]
    exact quietExt_afterHeaderErr st
  · rw [read_packet_ok_eq st buf r hh]
    by_cases hp : PACKET_HEADER_LENGTH < decodedLen r
    · rw [if_pos hp]
      rcases hrs : read_sized_packet (afterHeader st r) (decodedLen r) buf
        with ⟨res, st2, buf2⟩
      have hq := (read_sized_packet_frame (afterHeader st r)
        (decodedLen r) buf).1
      rw [hrs] at hq
      have hq2 : quietExt st st2 :=
        quietExt_trans (quietExt_afterHeader st r) hq
      cases res with
      | error e => exact hq2
      | ok n =>
        simp only []
        split
        · exact quietExt_setCount hq2 _
        · exact hq2
    · rw [if_neg hp]
      simp only []
      split
      · exact quietExt_setCount (quietExt_afterHeader st r) _
      · exact quietExt_afterHeader st r

/-- `send_and_receive_packet` extends the trace by quiet events only. -/
theorem sarp_quiet (st : Iface) (send recv : List Nat) :
    quietExt st (send_and_receive_packet st send recv).2.1 := by
  rcases hw : st.port.writeResp st.writesDone with e0 | u
  · have hW := busWrite_err st send e0 hw
    simp only [send_and_receive_packet, hW]
    refine ⟨rfl, [Event.busWrite send.length], by simp [afterWrite], ?_⟩
    intro e he
    simp at he
    subst he
    exact Or.inr (Or.inr (Or.inr ⟨send.length, rfl⟩))
  · cases u
    rcases hh : st.port.readResp st.readsDone with e' | r
    · simp only [send_and_receive_packet, busWrite, hw,
        zero_recv_packet_header, busRead, hh]
      refine ⟨rfl, [Event.busWrite send.length, Event.zeroScratchHeader,
        Event.zeroOutput recv.length,
        Event.busRead PACKET_HEADER_LENGTH], by simp, ?_⟩
      intro e he
      simp at he
      rcases he with rfl | rfl | rfl | rfl
      · exact Or.inr (Or.inr (Or.inr ⟨send.length, rfl⟩))
      · exact Or.inr (Or.inl rfl)
      · exact Or.inr (Or.inr (Or.inl ⟨recv.length, rfl⟩))
      · exact Or.inl ⟨PACKET_HEADER_LENGTH, rfl, by decide⟩
    · rw [sarp_ok_eq st send recv r hw hh]
      by_cases hp : PACKET_HEADER_LENGTH < decodedLen r
      · rw [if_pos hp]
        rcases hrs : read_sized_packet
            (afterCmdHeader st send.length recv.length r) (decodedLen r)
            (List.replicate recv.length 0)
          with ⟨res, st2, buf2⟩
        have hq := (read_sized_packet_frame
          (afterCmdHeader st send.length recv.length r) (decodedLen r)
          (List.replicate recv.length 0)).1
        rw [hrs] at hq
        have hq2 : quietExt st st2 :=
          quietExt_trans (quietExt_afterCmdHeader st send.length
            recv.length r) hq
        cases res with
        | error e => exact hq2
        | ok n =>
          simp only []
          split
          · exact quietExt_setCount hq2 _
          · exact hq2
      · rw [if_neg hp]
        simp only []
        split
        · exact quietExt_setCount
            (quietExt_afterCmdHeader st send.length recv.length r) _
        · exact quietExt_afterCmdHeader st send.length recv.length r

/-- Events the polling wrapper may add: quiet events plus 1 ms
delays. -/
def pollEvent (e : Event) : Prop := quietEvent e ∨ e = Event.delay 1

/-- The polling loop extends the trace by quiet events and 1 ms delays
only, with the port untouched. -/
theorem rwtGo_pollExt (fuel : Nat) : ∀ (st : Iface) (buf : List Nat),
    (rwtGo fuel st buf).2.1.port = st.port ∧
      ∃ added, (rwtGo fuel st buf).2.1.events = st.events ++ added ∧
        ∀ e ∈ added, pollEvent e := by
  induction fuel with
  | zero => intro st buf; exact ⟨rfl, [], by simp [rwtGo], by simp⟩
  | succ fuel ih =>
    intro st buf
    have hq := read_packet_quiet st buf
    simp only [rwtGo]
    rcases hrp : read_packet st buf with ⟨res, st1, buf1⟩
    rw [hrp] at hq
    obtain ⟨hport1, add1, hev1, hq1⟩ := hq
    have hport1' : st1.port = st.port := hport1
    have hev1' : st1.events = st.events ++ add1 := hev1
    cases res with
    | ok k =>
      simp only []
      split
      · obtain ⟨hport2, add2, hev2, hq2⟩ := ih
          { st1 with events := st1.events ++ [Event.delay 1] } buf1
        refine ⟨by rw [hport2]; exact hport1',
          add1 ++ [Event.delay 1] ++ add2, ?_, ?_⟩
        · rw [hev2]
          show (st1.events ++ [Event.delay 1]) ++ add2 = _
          rw [hev1']
          simp
        · intro e he
          rcases List.mem_append.mp he with h12 | h2
          · rcases List.mem_append.mp h12 with h1 | hd
            · exact Or.inl (hq1 e h1)
            · have hde : e = Event.delay 1 := by simpa using hd
              exact Or.inr hde
          · exact hq2 e h2
      · exact ⟨hport1', add1, hev1', fun e he => Or.inl (hq1 e he)⟩
    | error e => exact ⟨hport1', add1, hev1', fun e he => Or.inl (hq1 e he)⟩

/-- Against a source whose headers always decode to 0, the polling loop
runs its full budget: one header read and one 1 ms delay per unit of
fuel, then returns `Ok 0`. -/
theorem rwtGo_zero_source (fuel : Nat) : ∀ (st : Iface) (buf : List Nat),
    (∀ n, ∃ r, st.port.readResp n = Except.ok r ∧ decodedLen r = 0) →
    ∃ st', rwtGo fuel st buf = (Except.ok 0, st', buf) ∧
      st'.readsDone = st.readsDone + fuel ∧
      st'.events = st.events ++ pollEvents fuel ∧
      st'.received_packet_count = st.received_packet_count ∧
      st'.port = st.port := by
  induction fuel with
  | zero =>
    intro st buf h
    exact ⟨st, rfl, by omega, by simp [pollEvents], rfl, rfl⟩
  | succ fuel ih =>
    intro st buf h
    obtain ⟨r, hr, h0⟩ := h st.readsDone
    have hrp : read_packet st buf = (Except.ok 0, afterHeader st r, buf) := by
      rw [read_packet_ok_eq st buf r hr, h0]
      rfl
    simp only [rwtGo, hrp]
    rw [if_pos trivial]
    obtain ⟨st', hgo, hreads, hevents, hcount, hport⟩ := ih
      { afterHeader st r with
          events := (afterHeader st r).events ++ [Event.delay 1] } buf
      (fun n => h n)
    refine ⟨st', hgo, ?_, ?_, ?_, ?_⟩
    · rw [hreads]
      show st.readsDone + 1 + fuel = st.readsDone + (fuel + 1)
      omega
    · rw [hevents]
      show ((st.events ++ [Event.zeroScratchHeader]) ++
        [Event.busRead PACKET_HEADER_LENGTH]) ++ [Event.delay 1] ++
          pollEvents fuel = st.events ++ pollEvents (fuel + 1)
      simp [pollEvents]
    · rw [hcount]
      rfl
    · rw [hport]
      rfl

/-- Claim C6: `read_with_timeout` with budget `N` against a source that
always yields `Ok 0` issues exactly `N` poll attempts (each one header
read) with a 1 ms delay after each, then returns `Ok 0`; an attempt
yielding `k > 0` bytes returns `Ok k` immediately without further
sleeping, and a communication error is returned immediately. -/
theorem c6_timeout_polling (st : Iface) (buf : List Nat) (N : Nat) :
    ((∀ n, ∃ r, st.port.readResp n = Except.ok r ∧ decodedLen r = 0) →
      ∃ st', read_with_timeout st buf N = (Except.ok 0, st', buf) ∧
        st'.readsDone = st.readsDone + N ∧
        st'.events = st.events ++ pollEvents N) ∧
    (∀ k st1 buf1, 0 < N → read_packet st buf = (Except.ok k, st1, buf1) →
      0 < k → read_with_timeout st buf N = (Except.ok k, st1, buf1)) ∧
    (∀ e st1 buf1, 0 < N →
      read_packet st buf = (Except.error e, st1, buf1) →
      read_with_timeout st buf N = (Except.error e, st1, buf1)) := by
  refine ⟨?_, ?_, ?_⟩
  · intro h
    obtain ⟨st', hgo, hreads, hevents, _, _⟩ := rwtGo_zero_source N st buf h
    exact ⟨st', hgo, hreads, hevents⟩
  · intro k st1 buf1 hN hrp hk
    obtain ⟨M, rfl⟩ : ∃ M, N = M + 1 := ⟨N - 1, by omega⟩
    show rwtGo (M + 1) st buf = _
    simp only [rwtGo, hrp]
    rw [if_neg (by omega)]
  · intro e st1 buf1 hN hrp
    obtain ⟨M, rfl⟩ : ∃ M, N = M + 1 := ⟨N - 1, by omega⟩
    show rwtGo (M + 1) st buf = _
    simp only [rwtGo, hrp]

/-- Witness for C6: against the silent source, a 10 ms window performs
exactly 10 polls (spec §8 scenario). -/
theorem c6_timeout_polling_witness :
    ∃ st', read_with_timeout (ifaceOf zeroPort) [] 10 =
        (Except.ok 0, st', []) ∧
      st'.readsDone = (ifaceOf zeroPort).readsDone + 10 ∧
      st'.events = (ifaceOf zeroPort).events ++ pollEvents 10 :=
  (c6_timeout_polling (ifaceOf zeroPort) [] 10).1
    (fun n => ⟨[], rfl, rfl⟩)

/-- Any quiet extension of a segment-bounded trace is segment-bounded. -/
theorem quietExt_all_segBounded {st st' : Iface}
    (h : st.events.all segBounded = true) (hq : quietExt st st') :
    st'.events.all segBounded = true := by
  obtain ⟨hp, added, hev, hqe⟩ := hq
  rw [hev, List.all_append, h, Bool.true_and, List.all_eq_true]
  intro e he
  exact quietEvent_segBounded (hqe e he)

/-- Claim C7: every buffer slice handed to the bus read primitive, in
every operation, has length at most the segment ceiling: every bus-read
event in every operation's trace is bounded by `MAX_SEGMENT_READ`. -/
theorem c7_segment_ceiling (st : Iface) (buf buf2 send recv : List Nat)
    (L m : Nat) (h : st.events.all segBounded = true) :
    (read_sized_packet st L buf).2.1.events.all segBounded = true ∧
    (read_packet st buf2).2.1.events.all segBounded = true ∧
    (send_and_receive_packet st send recv).2.1.events.all segBounded =
      true ∧
    (read_with_timeout st buf2 m).2.1.events.all segBounded = true := by
  refine ⟨quietExt_all_segBounded h (read_sized_packet_frame st L buf).1,
    quietExt_all_segBounded h (read_packet_quiet st buf2),
    quietExt_all_segBounded h (sarp_quiet st send recv), ?_⟩
  obtain ⟨added, hev, hqe⟩ := (rwtGo_pollExt m st buf2).2
  show (rwtGo m st buf2).2.1.events.all segBounded = true
  rw [hev, List.all_append, h, Bool.true_and, List.all_eq_true]
  intro e he
  rcases hqe e he with hq | rfl
  · exact quietEvent_segBounded hq
  · rfl

/-- Witness for C7 on a concrete trace. -/
theorem c7_segment_ceiling_witness :
    (read_packet (ifaceOf zeroPort) []).2.1.events.all segBounded = true :=
  (c7_segment_ceiling (ifaceOf zeroPort) [] [] [] [] 0 0 rfl).2.1

/-- Claim C9: `send_and_receive_packet` performs, in order, a bounded
write of the command bytes, zeroing of the scratch header region and of
the caller's entire output buffer, a header-only bus read, header
decode, delegation to `read_sized_packet` when the decoded length
exceeds the header length, and a counter increment when the decoded
length is non-zero; it never uses a combined write-then-read bus
transaction and inserts no delay between the write and the read. -/
theorem c9_command_response (st : Iface) (send recv r : List Nat)
    (hw : st.port.writeResp st.writesDone = Except.ok ())
    (hr : st.port.readResp st.readsDone = Except.ok r) :
    (∃ rest, (send_and_receive_packet st send recv).2.1.events =
      st.events ++ Event.busWrite send.length ::
        Event.zeroScratchHeader :: Event.zeroOutput recv.length ::
        Event.busRead PACKET_HEADER_LENGTH :: rest ∧
      ∀ e ∈ rest, isDelay e = false ∧ isWriteRead e = false) ∧
    (∀ e ∈ (send_and_receive_packet st send recv).2.1.events,
      e ∈ st.events ∨ (isDelay e = false ∧ isWriteRead e = false)) ∧
    (send_and_receive_packet st send recv =
      match (if PACKET_HEADER_LENGTH < decodedLen r then
          read_sized_packet (afterCmdHeader st send.length recv.length r)
            (decodedLen r) (List.replicate recv.length 0)
        else (Except.ok (decodedLen r),
          afterCmdHeader st send.length recv.length r,
          List.replicate recv.length 0)) with
      | (Except.error e, st2, buf2) => (Except.error e, st2, buf2)
      | (Except.ok n, st2, buf2) =>
        (Except.ok n,
          if 0 < decodedLen r then
            { st2 with received_packet_count :=
                st2.received_packet_count + 1 }
          else st2, buf2)) ∧
    (decodedLen r ≤ PACKET_HEADER_LENGTH →
      (send_and_receive_packet st send recv).1 =
        Except.ok (decodedLen r) ∧
      (send_and_receive_packet st send recv).2.2 =
        List.replicate recv.length 0 ∧
      (send_and_receive_packet st send recv).2.1.readsDone =
        st.readsDone + 1) := by
  have hE := sarp_ok_eq st send recv r hw hr
  refine ⟨?_, ?_, hE, ?_⟩
  · rw [hE]
    by_cases hp : PACKET_HEADER_LENGTH < decodedLen r
    · rw [if_pos hp]
      rcases hrs : read_sized_packet
          (afterCmdHeader st send.length recv.length r) (decodedLen r)
          (List.replicate recv.length 0)
        with ⟨res, st2, buf2⟩
      have hq := (read_sized_packet_frame
        (afterCmdHeader st send.length recv.length r) (decodedLen r)
        (List.replicate recv.length 0)).1
      rw [hrs] at hq
      obtain ⟨hport2, added, hev, hqe⟩ := hq
      have hev' : st2.events =
          (afterCmdHeader st send.length recv.length r).events ++ added :=
        hev
      have hrest : ∀ e ∈ added, isDelay e = false ∧ isWriteRead e = false :=
        fun e he => ⟨quietEvent_not_delay (hqe e he),
          quietEvent_not_writeRead (hqe e he)⟩
      cases res with
      | error e =>
        refine ⟨added, ?_, hrest⟩
        rw [hev']
        show ((((st.events ++ [Event.busWrite send.length]) ++
          [Event.zeroScratchHeader]) ++ [Event.zeroOutput recv.length]) ++
          [Event.busRead PACKET_HEADER_LENGTH]) ++ added = _
        simp
      | ok n =>
        refine ⟨added, ?_, hrest⟩
        have hevents : (if 0 < decodedLen r then
            { st2 with received_packet_count :=
                st2.received_packet_count + 1 }
          else st2).events = st2.events := by
          split <;> rfl
        show (if 0 < decodedLen r then
            { st2 with received_packet_count :=
                st2.received_packet_count + 1 }
          else st2).events = _
        rw [hevents, hev']
        show ((((st.events ++ [Event.busWrite send.length]) ++
          [Event.zeroScratchHeader]) ++ [Event.zeroOutput recv.length]) ++
          [Event.busRead PACKET_HEADER_LENGTH]) ++ added = _
        simp
    · rw [if_neg hp]
      refine ⟨[], ?_, by simp⟩
      simp only []
      have hevents : (if 0 < decodedLen r then
          { afterCmdHeader st send.length recv.length r with
              received_packet_count := (afterCmdHeader st send.length
                recv.length r).received_packet_count + 1 }
        else afterCmdHeader st send.length recv.length r).events =
          (afterCmdHeader st send.length recv.length r).events := by
        split <;> rfl
      rw [hevents]
      show ((((st.events ++ [Event.busWrite send.length]) ++
        [Event.zeroScratchHeader]) ++ [Event.zeroOutput recv.length]) ++
        [Event.busRead PACKET_HEADER_LENGTH]) = _
      simp
  · intro e he
    obtain ⟨hp, added, hev, hqe⟩ := sarp_quiet st send recv
    rw [hev] at he
    rcases List.mem_append.mp he with h1 | h2
    · exact Or.inl h1
    · exact Or.inr ⟨quietEvent_not_delay (hqe e h2),
        quietEvent_not_writeRead (hqe e h2)⟩
  · intro hle
    rw [hE, if_neg (Nat.not_lt.mpr hle)]
    refine ⟨rfl, rfl, ?_⟩
    simp only []
    split <;> rfl

/-- Witness for C9: the no-body path at a zero header. -/
theorem c9_command_response_witness :
    (send_and_receive_packet (ifaceOf zeroPort) [2, 3]
        (List.replicate 8 5)).1 = Except.ok (decodedLen []) ∧
    (send_and_receive_packet (ifaceOf zeroPort) [2, 3]
        (List.replicate 8 5)).2.2 =
      List.replicate (List.replicate 8 5).length 0 ∧
    (send_and_receive_packet (ifaceOf zeroPort) [2, 3]
        (List.replicate 8 5)).2.1.readsDone =
      (ifaceOf zeroPort).readsDone + 1 := by
  have h := c9_command_response (ifaceOf zeroPort) [2, 3]
    (List.replicate 8 5) [] rfl rfl
  exact h.2.2.2 (by decide)

end BNO080
